import Mathlib

/-
Verification development for the tk-playstore descriptor.

The definitions below are shallow embeddings of the Python sources:
  src/python/playstore_io_descriptor/playstore.py  (IODescriptorPlayStoreBase)
  src/examples/tank_playstore.py                   (IODescriptorTankPlayStore)
Python dictionaries returned by the catalog client are modelled as records;
optional values are modelled with Option; code that raises is modelled with
Except.  Filesystem and catalog-client behaviour is passed in explicitly as
oracles so that call traces and write attempts become observable values.
-/

namespace PlayStore

/- ------------------------------------------------------------------
Glob matching.

The label matcher in playstore.py (lines 731-751) delegates glob
matching to Python standard-library fnmatch.fnmatch(label, tag): the
tag is the glob pattern, the label is the subject.  The matcher below
embeds fnmatch semantics on POSIX (no case folding): a star matches
any run of characters, a question mark matches one character, and a
bracketed class matches one character from the class, with a leading
exclamation mark negating the class; an unterminated class makes the
opening bracket a literal character.  The recursion is driven by a
fuel argument; every recursive call strictly decreases the combined
length of pattern and subject, so the initial fuel below is always
sufficient and the zero-fuel branch is unreachable.
------------------------------------------------------------------ -/

/-- Scans for the closing bracket of a character class; returns the class
body and the remaining pattern, or none when the class is unterminated. -/
def scanClose : List Char → List Char → Option (List Char × List Char)
  | [], _ => none
  | ']' :: rest, acc => some (acc.reverse, rest)
  | c :: rest, acc => scanClose rest (c :: acc)

/-- Parses a character class from the characters following an opening
bracket: returns (negated, class body, rest of the pattern).  A leading
exclamation mark negates; a closing bracket placed first is a literal
member of the class, as in fnmatch. -/
def parseClass (s : List Char) : Option (Bool × List Char × List Char) :=
  match s with
  | '!' :: ']' :: t => (scanClose t []).map (fun pr => (true, ']' :: pr.1, pr.2))
  | '!' :: t => (scanClose t []).map (fun pr => (true, pr.1, pr.2))
  | ']' :: t => (scanClose t []).map (fun pr => (false, ']' :: pr.1, pr.2))
  | t => (scanClose t []).map (fun pr => (false, pr.1, pr.2))

/-- Tests membership of a character in a class body, honouring ranges
written with a dash between two characters. -/
def charInClass : List Char → Char → Bool
  | [], _ => false
  | a :: '-' :: b :: rest, c =>
      (decide (a ≤ c) && decide (c ≤ b)) || charInClass rest c
  | a :: rest, c => (a == c) || charInClass rest c

/-- Fuel-driven core of the glob matcher; first list is the pattern,
second is the subject. -/
def globMatchAux : Nat → List Char → List Char → Bool
  | 0, _, _ => false
  | _ + 1, [], s => s.isEmpty
  | fuel + 1, '*' :: pr, s =>
      globMatchAux fuel pr s ||
        (match s with
         | [] => false
         | _ :: sr => globMatchAux fuel ('*' :: pr) sr)
  | fuel + 1, '?' :: pr, s =>
      (match s with
       | [] => false
       | _ :: sr => globMatchAux fuel pr sr)
  | fuel + 1, '[' :: pr, s =>
      (match parseClass pr with
       | some cls =>
           (match s with
            | [] => false
            | c :: sr =>
                (if cls.1 then !(charInClass cls.2.1 c) else charInClass cls.2.1 c) &&
                  globMatchAux fuel cls.2.2 sr)
       | none =>
           (match s with
            | [] => false
            | c :: sr => (c == '[') && globMatchAux fuel pr sr))
  | fuel + 1, a :: pr, s =>
      (match s with
       | [] => false
       | c :: sr => (a == c) && globMatchAux fuel pr sr)

/-- Glob match of a pattern against a subject, fnmatch style. -/
def globMatch (p s : List Char) : Bool :=
  globMatchAux (p.length + s.length + 1) p s

/-- Embeds fnmatch.fnmatch(nm, pat) on POSIX: nm is the subject, pat the
glob pattern. -/
def fnmatch (nm pat : String) : Bool :=
  globMatch pat.data nm.data

/- ------------------------------------------------------------------
Label matcher: playstore.py lines 731-751 (_match_label).
The label is the descriptor field self._label; the tag list comes from
the catalog.  Source:
  if self._label is None: return True
  if tag_list is None: return False
  for tag in tag_list:
      if fnmatch.fnmatch(self._label, tag): return True
  return False
------------------------------------------------------------------ -/

/-- The optional label and optional tag list, matched as in _match_label. -/
def matchLabel (label : Option String) (tagList : Option (List String)) : Bool :=
  match label with
  | none => true
  | some l =>
      match tagList with
      | none => false
      | some tags => tags.any (fun tag => fnmatch l tag)

/- ------------------------------------------------------------------
Version pattern matcher.

Modelled from the spec: _find_latest_tag_by_pattern is inherited from
the toolkit core base class IODescriptorBase, whose source is not part
of this repository; only its call sites (playstore.py lines 566-568 and
683-685) are.  The model follows the spec, section 4.1: candidates are
version strings; a pattern is optional; the wildcard segment is the
literal segment x; components before the first wildcard must match
exactly; the best candidate is the maximum under a version-aware
ordering that compares dot-separated segments numerically when both
sides parse as integers and lexically otherwise, padding missing
trailing segments with zero.
------------------------------------------------------------------ -/

/-- Three-way comparison of naturals. -/
def natCmp (m n : Nat) : Ordering :=
  if m < n then .lt else if n < m then .gt else .eq

/-- Three-way comparison of characters by code point. -/
def charCmp (a b : Char) : Ordering :=
  natCmp a.toNat b.toNat

/-- Lexicographic three-way comparison of character lists. -/
def lexCmp : List Char → List Char → Ordering
  | [], [] => .eq
  | [], _ :: _ => .lt
  | _ :: _, [] => .gt
  | a :: ar, b :: br => (charCmp a b).then (lexCmp ar br)

/-- Parses a segment as a base-ten natural: all characters must be
digits and the segment must be nonempty. -/
def segToNat? (cs : List Char) : Option Nat :=
  match cs with
  | [] => none
  | _ :: _ =>
      if cs.all (fun c => c.isDigit) then
        some (cs.foldl (fun n c => n * 10 + (c.toNat - 48)) 0)
      else none

/-- Compares two version segments: numerically when both parse as
integers, lexically otherwise. -/
def segCmp (a b : List Char) : Ordering :=
  match segToNat? a, segToNat? b with
  | some m, some n => natCmp m n
  | _, _ => lexCmp a b

/-- The zero segment used to pad missing trailing segments. -/
def zeroSeg : List Char := ['0']

/-- Compares an all-zero padding against the remaining segments of the
longer version string. -/
def cmpZerosRight : List (List Char) → Ordering
  | [] => .eq
  | b :: br => (segCmp zeroSeg b).then (cmpZerosRight br)

/-- Segment-wise version comparison; a missing trailing segment counts
as zero. -/
def segsCmp : List (List Char) → List (List Char) → Ordering
  | [], b => cmpZerosRight b
  | a :: ar, [] => (segCmp a zeroSeg).then (segsCmp ar [])
  | a :: ar, b :: br => (segCmp a b).then (segsCmp ar br)

/-- Splits a character list into dot-separated segments, like the
Python split on a dot: the empty input yields one empty segment. -/
def splitOnDot (cs : List Char) : List (List Char) :=
  cs.foldr
    (fun c acc =>
      match acc with
      | seg :: rest => if c = '.' then [] :: seg :: rest else (c :: seg) :: rest
      | [] => [[c]])
    [[]]

/-- The dot-separated segments of a version string. -/
def versionSegs (s : String) : List (List Char) :=
  splitOnDot s.data

/-- Version-aware three-way comparison of two version strings. -/
def versionCmp (a b : String) : Ordering :=
  segsCmp (versionSegs a) (versionSegs b)

/-- Version-ordering: a is no greater than b. -/
def vLe (a b : String) : Prop :=
  versionCmp a b ≠ .gt

instance (a b : String) : Decidable (vLe a b) := by
  unfold vLe; infer_instance

/-- The wildcard segment of a version constraint pattern. -/
def wildcardSeg : List Char := ['x']

/-- True when the pattern contains a wildcard segment. -/
def hasWildcard (p : String) : Bool :=
  (versionSegs p).any (fun seg => seg == wildcardSeg)

/-- The pattern segments before the first wildcard segment. -/
def patternLead (p : String) : List (List Char) :=
  (versionSegs p).takeWhile (fun seg => seg != wildcardSeg)

/-- True when a candidate version satisfies the constraint pattern:
for a wildcard pattern the candidate segments before the wildcard must
match exactly; a literal pattern must equal the candidate. -/
def satisfiesPattern (p c : String) : Bool :=
  if hasWildcard p then
    (versionSegs c).take (patternLead p).length == patternLead p
  else c == p

/-- Keeps the better of two candidates under the version ordering. -/
def pickMax (best c : String) : String :=
  if versionCmp best c = .lt then c else best

/-- The version-ordering maximum of a candidate list, none when empty. -/
def maxVersion : List String → Option String
  | [] => none
  | h :: t => some (t.foldl pickMax h)

/-- Modelled from the spec: the version pattern matcher
(selectBest in the spec, _find_latest_tag_by_pattern in the toolkit
core base class, which is not part of this repository).  Returns the
version-ordering maximum of the candidates that satisfy the pattern,
all candidates when the pattern is none, and none when no candidate
satisfies it. -/
def selectBest (candidates : List String) (pattern : Option String) : Option String :=
  match pattern with
  | none => maxVersion candidates
  | some p =>
      if hasWildcard p then
        maxVersion (candidates.filter (fun c => satisfiesPattern p c))
      else
        if candidates.any (fun c => c == p) then some p else none

/-- The candidates that satisfy an optional pattern: all of them when
the pattern is none. -/
def satisfying (candidates : List String) (pattern : Option String) : List String :=
  match pattern with
  | none => candidates
  | some p => candidates.filter (fun c => satisfiesPattern p c)


/- ------------------------------------------------------------------
Data model for the catalog records and the side-car metadata cache.

The catalog client (shotgun connection) returns dictionaries; the
fields actually read by the descriptor are modelled as record fields.
A record returned by find_one always carries its requested fields, so
it is never an empty dictionary: Python truthiness of an optional
record is therefore modelled as Option.isSome.
------------------------------------------------------------------ -/

/-- Artifact kinds, the possible values of self.bundle_type
(constants.DESCRIPTOR_APP and friends, with core the special kind). -/
inductive BundleType where
  | app
  | framework
  | engine
  | config
  | installedConfig
  | core
deriving DecidableEq

/-- A bundle-level record as returned by find_one on the bundle entity
(playstore.py bundle_fields_to_cache). -/
structure BundleRecord where
  id : Nat
  sg_system_name : String
deriving DecidableEq

/-- A version-level record as returned by find_one or find on the
version entity (playstore.py version_fields_to_cache); tags is none
when the tags key is missing from a cached copy. -/
structure VersionRecord where
  id : Nat
  code : String
  tags : Option (List String)
deriving DecidableEq

/-- The side-car metadata record written by _refresh_metadata: keys
sg_bundle_data and sg_version_data.  The empty dictionary returned for
a missing cache file is modelled as both fields absent. -/
structure CachedMetadata where
  sg_bundle_data : Option BundleRecord
  sg_version_data : Option VersionRecord
deriving DecidableEq

/-- The error raised by descriptor operations (TankDescriptorError and
TankAppStoreError in the source), carrying its message. -/
inductive TankError where
  | descriptorError (msg : String)
  | appStoreError (msg : String)
  | connectionError (msg : String)
deriving DecidableEq

/-- One remote catalog-client call made by _refresh_metadata. -/
inductive RemoteCall where
  | bundleLookup
  | versionLookup
deriving DecidableEq

/-- The catalog-client capability used by _refresh_metadata: find_one
on the bundle entity keyed by sg_system_name, find_one on the version
entity keyed by link field and code, and find_one on the core version
entity keyed by code. -/
structure PlayStoreCatalog where
  findBundle : BundleType → String → Option BundleRecord
  findVersion : BundleType → BundleRecord → String → Option VersionRecord
  findCoreVersion : String → Option VersionRecord

instance exceptDecEq {ε α : Type} [DecidableEq ε] [DecidableEq α] :
    DecidableEq (Except ε α) := fun x y =>
  match x, y with
  | .ok a, .ok b =>
      if h : a = b then isTrue (by rw [h])
      else isFalse (by intro hc; injection hc; contradiction)
  | .error a, .error b =>
      if h : a = b then isTrue (by rw [h])
      else isFalse (by intro hc; injection hc; contradiction)
  | .ok _, .error _ => isFalse (by intro hc; exact Except.noConfusion hc)
  | .error _, .ok _ => isFalse (by intro hc; exact Except.noConfusion hc)

/-- The observable outcome of one _refresh_metadata call: the returned
value or raised error, the remote calls performed in order, and the
side-car content the call managed to persist (none when the write
failed or was never reached). -/
structure RefreshOutcome where
  result : Except TankError CachedMetadata
  calls : List RemoteCall
  written : Option CachedMetadata
deriving DecidableEq

/- ------------------------------------------------------------------
Metadata refresh: playstore.py lines 260-358 (_refresh_metadata).

The source tests `if (sg_version_data):` only - there is deliberately
no none-check for sg_bundle_data, which is none for tk-core.  When the
test fails it connects to the play store (modelled by the conn
argument), then for core performs a single version lookup and for
every other kind a bundle lookup followed by a version lookup, raising
TankDescriptorError when a record is missing.  The final write of the
side-car file is wrapped in try/except: a failure (writable = false)
is logged and swallowed, and the metadata is returned regardless.
------------------------------------------------------------------ -/

def refreshMetadata (cat : PlayStoreCatalog) (bt : BundleType)
    (name version : String) (writable : Bool) (conn : Except TankError Unit)
    (sg_bundle_data : Option BundleRecord) (sg_version_data : Option VersionRecord) :
    RefreshOutcome :=
  if sg_version_data.isSome then
    let metadata : CachedMetadata := ⟨sg_bundle_data, sg_version_data⟩
    ⟨.ok metadata, [], if writable then some metadata else none⟩
  else
    match conn with
    | .error e => ⟨.error e, [], none⟩
    | .ok _ =>
        if bt = .core then
          match cat.findCoreVersion version with
          | none =>
              ⟨.error (.descriptorError
                  ("The Play Store does not have a version " ++ version ++ " of Core!")),
                [.versionLookup], none⟩
          | some v =>
              let metadata : CachedMetadata := ⟨none, some v⟩
              ⟨.ok metadata, [.versionLookup],
                if writable then some metadata else none⟩
        else
          match cat.findBundle bt name with
          | none =>
              ⟨.error (.descriptorError
                  ("The Play Store does not contain an item named " ++ name ++ "!")),
                [.bundleLookup], none⟩
          | some b =>
              match cat.findVersion bt b version with
              | none =>
                  ⟨.error (.descriptorError
                      ("The Play Store does not have a version " ++ version ++
                        " of item " ++ name ++ "!")),
                    [.bundleLookup, .versionLookup], none⟩
              | some v =>
                  let metadata : CachedMetadata := ⟨some b, some v⟩
                  ⟨.ok metadata, [.bundleLookup, .versionLookup],
                    if writable then some metadata else none⟩

/-- A concrete catalog used by witnesses: every bundle lookup finds a
bundle record and every version lookup finds a version record. -/
def sampleCatalog : PlayStoreCatalog :=
  ⟨fun _ _ => some ⟨1, "tk-framework-demo"⟩,
   fun _ _ _ => some ⟨2, "v1.0.0", some []⟩,
   fun _ => some ⟨3, "v1.0.0", some []⟩⟩


/- ------------------------------------------------------------------
Metadata cache load: playstore.py lines 238-258
(_load_cached_play_store_metadata).
------------------------------------------------------------------ -/

/-- File name of the side-car metadata cache (playstore.py line 38). -/
def METADATA_FILE : String := ".cached_metadata.pickle"

/-- os.path.join as used for the side-car path. -/
def joinPath (a b : String) : String := a ++ "/" ++ b

/-- The filesystem as seen through os.path.exists, open and
pickle.load: none when the file does not exist, and otherwise the
outcome of unpickling it - a corrupt present file raises. -/
abbrev FileSys : Type := String → Option (Except Unit CachedMetadata)

/-- Loads the side-car metadata: returns the unpickled content when
the file exists, and the empty dictionary - modelled as the record
with both fields absent - when it does not. -/
def loadCachedPlayStoreMetadata (fs : FileSys) (path : String) :
    Except Unit CachedMetadata :=
  match fs (joinPath path METADATA_FILE) with
  | none => .ok ⟨none, none⟩
  | some content => content

/-- A concrete filesystem used by witnesses: path p1 holds a readable
side-car whose version record carries tags, path p2 holds a corrupt
side-car, and every other path holds nothing. -/
def sampleFs : FileSys := fun p =>
  if p = "p1/.cached_metadata.pickle" then
    some (.ok ⟨none, some ⟨1, "v1.0.0", some ["2018.*"]⟩⟩)
  else if p = "p2/.cached_metadata.pickle" then
    some (.error ())
  else none

/- ------------------------------------------------------------------
Latest cached version: playstore.py lines 527-589
(get_latest_cached_version).
------------------------------------------------------------------ -/

/-- A descriptor dictionary as assembled at playstore.py lines 572-580
and 706-714: type, name, version and the label when one is set. -/
structure DescriptorDict where
  descType : String
  name : String
  version : String
  label : Option String
deriving DecidableEq

/-- Extracts the tag names from an already loaded metadata record,
embedding the subscript expression at playstore.py line 550; its
failure modes - the empty dictionary a missing side-car loads as,
version data that is none, an absent tags key - are errors here. -/
def extractTags (md : CachedMetadata) : Except Unit (List String) :=
  match md.sg_version_data with
  | none => .error ()
  | some vr =>
      match vr.tags with
      | none => .error ()
      | some ts => .ok ts

/-- The label-filtering loop of playstore.py lines 547-557.  The
metadata load at line 548 sits outside the try/except that starts at
line 549, and _load_cached_play_store_metadata wraps pickle.load only
in try/finally, so a corrupt present side-car raises out of the loop;
only the tag extraction and label match are guarded, and their failure
skips the version silently. -/
def cachedVersionNumbersLoop (fs : FileSys) (label : Option String) :
    List (String × String) → Except Unit (List String)
  | [] => .ok []
  | vp :: rest =>
      match loadCachedPlayStoreMetadata fs vp.2 with
      | .error e => .error e
      | .ok md =>
          match cachedVersionNumbersLoop fs label rest with
          | .error e => .error e
          | .ok tail =>
              match extractTags md with
              | .error _ => .ok tail
              | .ok ts =>
                  .ok (if matchLabel label (some ts) then vp.1 :: tail else tail)

/-- The version numbers surviving label filtering (playstore.py lines
542-561): with no label every locally cached version survives and no
side-car is read; with a label the filtering loop runs and a corrupt
present side-car raises. -/
def cachedVersionNumbers (fs : FileSys) (allVersions : List (String × String))
    (label : Option String) : Except Unit (List String) :=
  match label with
  | none => .ok (allVersions.map (fun vp => vp.1))
  | some _ => cachedVersionNumbersLoop fs label allVersions

/-- playstore.py lines 527-589 (get_latest_cached_version).  The cache
inventory produced by _get_locally_cached_versions - inherited from
the toolkit core base class, not part of this repository - is passed
in as the mapping from version string to path, per the Cache Inventory
Scanner contract of the spec.  No catalog client appears anywhere in
the definition: the operation never touches the network.  An
unpickling error from a corrupt present side-car propagates out when a
label is set; otherwise the result is a descriptor or none. -/
def getLatestCachedVersion (fs : FileSys) (allVersions : List (String × String))
    (name : String) (label : Option String) (pattern : Option String) :
    Except Unit (Option DescriptorDict) :=
  match cachedVersionNumbers fs allVersions label with
  | .error e => .error e
  | .ok version_numbers =>
      if version_numbers.isEmpty then .ok none
      else
        match selectBest version_numbers pattern with
        | none => .ok none
        | some v => .ok (some ⟨"play_store", name, v, label⟩)

/- ------------------------------------------------------------------
Latest remote version, selection phase: playstore.py lines 663-729
(get_latest_version after the catalog query).
------------------------------------------------------------------ -/

/-- A version entry downloaded by the catalog find on the version
entity, with the tag names already extracted as at line 666; the list
order is descending creation time. -/
structure SgVersionEntry where
  id : Nat
  code : String
  tags : List String
deriving DecidableEq

/-- The message raised at playstore.py lines 687-695 when no version
matches the constraint pattern: it names the artifact and the pattern
and enumerates the surviving version strings, comma separated. -/
def noMatchingVersionMsg (name p : String) (versions : List String) : String :=
  name ++ " does not have a version matching the pattern " ++ p ++
    ". Available versions are: " ++ String.intercalate ", " versions

/-- The selection phase of get_latest_version: label filtering over
the downloaded version entries (lines 663-668), the empty-set error
(lines 674-677), and the constraint-pattern path delegating to the
version pattern matcher and raising the no-matching-version error with
the enumerated candidates when it returns none (lines 680-699); with
no pattern the first surviving entry - the newest by the descending
order of the query - wins (lines 701-704). -/
def getLatestVersionSelect (name : String) (label : Option String)
    (sgVersions : List SgVersionEntry) (constraintPattern : Option String) :
    Except TankError DescriptorDict :=
  let matching_records := sgVersions.filter (fun e => matchLabel label (some e.tags))
  match matching_records with
  | [] =>
      .error (.descriptorError
        ("Cannot find any versions for " ++ name ++ " in the Play Store!"))
  | e :: _ =>
      match constraintPattern with
      | none => .ok ⟨"play_store", name, e.code, label⟩
      | some p =>
          let version_numbers := matching_records.map (fun r => r.code)
          match selectBest version_numbers (some p) with
          | none =>
              .error (.descriptorError (noMatchingVersionMsg name p version_numbers))
          | some v => .ok ⟨"play_store", name, v, label⟩

/- ------------------------------------------------------------------
Connection establishment, credential phase: tank_playstore.py lines
93-113 (_create_sg_play_store_connection).
------------------------------------------------------------------ -/

/-- Install credentials returned by the special controller method
(script name and script key). -/
structure Creds where
  scriptName : String
  scriptKey : String
deriving DecidableEq

/-- The failure modes of _get_play_store_key_from_shotgun as seen by
its caller: an HTTP error carrying a status code, or any other
exception, which the handler at line 99 does not catch. -/
inductive FetchErr where
  | httpError (code : Nat)
  | otherExc
deriving DecidableEq

/-- The observable steps of the credential phase: a credentials fetch
against the associated site, or the session-refreshing catalog query
find_one on HumanUser at line 109. -/
inductive ConnEvent where
  | credsFetch
  | sessionRefresh
deriving DecidableEq

/-- tank_playstore.py lines 97-113: fetch the install credentials; on
an HTTP error with code 403, refresh the session via an unrelated
catalog query and retry the fetch exactly once with no handler around
the retry; an HTTP error with any other code is re-raised immediately,
and a non-HTTP exception is never caught.  The fetch oracle gives the
outcome of the first and of the retried call. -/
def fetchCredsWithRetry (fetch : Nat → Except FetchErr Creds) :
    Except FetchErr Creds × List ConnEvent :=
  match fetch 0 with
  | .ok c => (.ok c, [.credsFetch])
  | .error (.httpError code) =>
      if code = 403 then
        (fetch 1, [.credsFetch, .sessionRefresh, .credsFetch])
      else
        (.error (.httpError code), [.credsFetch])
  | .error .otherExc => (.error .otherExc, [.credsFetch])

/- ------------------------------------------------------------------
Connectivity probe: playstore.py lines 779-801 (has_remote_access).
------------------------------------------------------------------ -/

/-- has_remote_access: probes the connection step - passed in as the
oracle conn - and turns success into true and any raised exception
into false, with no other effect of its own. -/
def hasRemoteAccess {α : Type} (conn : Except TankError α) : Bool :=
  match conn with
  | .ok _ => true
  | .error _ => false

/-- Two concrete downloaded version entries used by the C2 witness. -/
def sampleEntries : List SgVersionEntry :=
  [⟨1, "v1.0.0", []⟩, ⟨2, "v2.0.0", []⟩]

/-- A concrete fetch oracle used by the C8 witness: the first call
fails with HTTP 403 and the retried call returns credentials. -/
def sampleFetch : Nat → Except FetchErr Creds := fun n =>
  if n = 0 then .error (.httpError 403) else .ok ⟨"demo-script", "demo-key"⟩
/- Order-theoretic facts about the version comparison. -/

theorem ord_swap_swap (o : Ordering) : o.swap.swap = o := by
  cases o <;> rfl

theorem ord_then_swap (a b : Ordering) : (a.then b).swap = a.swap.then b.swap := by
  cases a <;> rfl

theorem natCmp_swap (m n : Nat) : natCmp m n = (natCmp n m).swap := by
  unfold natCmp
  rcases Nat.lt_trichotomy m n with h | h | h
  · rw [if_pos h, if_neg (Nat.lt_asymm h), if_pos h]
    rfl
  · subst h
    simp only [if_neg (Nat.lt_irrefl m)]
    rfl
  · rw [if_neg (Nat.lt_asymm h), if_pos h, if_pos h]
    rfl

theorem charCmp_swap (a b : Char) : charCmp a b = (charCmp b a).swap := by
  unfold charCmp
  exact natCmp_swap _ _

theorem lexCmp_swap (a : List Char) : ∀ b, lexCmp a b = (lexCmp b a).swap := by
  induction a with
  | nil => intro b; cases b <;> rfl
  | cons x xr ih =>
      intro b
      cases b with
      | nil => rfl
      | cons y yr =>
          simp only [lexCmp]
          rw [ord_then_swap, ← charCmp_swap, ← ih yr]

theorem segCmp_swap (a b : List Char) : segCmp a b = (segCmp b a).swap := by
  unfold segCmp
  rcases ha : segToNat? a with _ | m <;> rcases hb : segToNat? b with _ | n <;>
    first
      | exact lexCmp_swap a b
      | exact natCmp_swap m n

theorem segsCmp_nil_swap (b : List (List Char)) :
    segsCmp b [] = (cmpZerosRight b).swap := by
  induction b with
  | nil => rfl
  | cons x xr ih =>
      simp only [segsCmp, cmpZerosRight]
      rw [ord_then_swap, ← segCmp_swap, ← ih]

theorem segsCmp_swap (a : List (List Char)) : ∀ b, segsCmp a b = (segsCmp b a).swap := by
  induction a with
  | nil =>
      intro b
      rw [segsCmp_nil_swap b, ord_swap_swap]
      rfl
  | cons x xr ih =>
      intro b
      cases b with
      | nil => exact segsCmp_nil_swap (x :: xr)
      | cons y yr =>
          simp only [segsCmp]
          rw [ord_then_swap, ← segCmp_swap, ← ih yr]

theorem versionCmp_swap (a b : String) : versionCmp a b = (versionCmp b a).swap := by
  unfold versionCmp
  exact segsCmp_swap _ _

theorem vLe_refl (a : String) : vLe a a := by
  unfold vLe
  intro h
  have := versionCmp_swap a a
  rw [h] at this
  exact Ordering.noConfusion this

theorem vLe_total (a b : String) : vLe a b ∨ vLe b a := by
  by_cases h : versionCmp a b = .gt
  · right
    unfold vLe
    rw [versionCmp_swap b a, h]
    intro hc
    exact Ordering.noConfusion hc
  · exact Or.inl h

theorem vLe_of_not_lt (a b : String) (h : versionCmp a b ≠ .lt) : vLe b a := by
  unfold vLe
  rw [versionCmp_swap b a]
  intro hc
  apply h
  have := congrArg Ordering.swap hc
  rw [ord_swap_swap] at this
  exact this

/- The greatest element returned by the fold in maxVersion.  The
version ordering is not transitive on arbitrary strings (mixing
numeric and lexical segment comparison can produce cycles), so the
maximum property is proved for candidate lists on which the ordering
is transitive; this hypothesis is decidable and holds for all the
version sets in the specification. -/

theorem pickMax_cases (h c : String) : pickMax h c = h ∨ pickMax h c = c := by
  unfold pickMax
  split
  · exact Or.inr rfl
  · exact Or.inl rfl

theorem vLe_pickMax_left (h c : String) : vLe h (pickMax h c) := by
  unfold pickMax
  split
  · next hlt => unfold vLe; rw [hlt]; intro hc; exact Ordering.noConfusion hc
  · exact vLe_refl h

theorem vLe_pickMax_right (h c : String) : vLe c (pickMax h c) := by
  unfold pickMax
  split
  · exact vLe_refl c
  · next hnlt => exact vLe_of_not_lt h c hnlt

theorem foldl_pickMax_mem (t : List String) : ∀ h : String, t.foldl pickMax h ∈ h :: t := by
  induction t with
  | nil => intro h; simp
  | cons x xr ih =>
      intro h
      have hmem := ih (pickMax h x)
      have hcases := pickMax_cases h x
      simp only [List.foldl_cons]
      rcases List.mem_cons.mp hmem with heq | hmem2
      · rcases hcases with hc | hc
        · rw [heq, hc]; exact List.mem_cons_self _ _
        · rw [heq, hc]
          exact List.mem_cons_of_mem _ (List.mem_cons_self _ _)
      · exact List.mem_cons_of_mem _ (List.mem_cons_of_mem _ hmem2)

theorem foldl_pickMax_ge (t : List String) :
    ∀ h : String,
      (∀ a ∈ h :: t, ∀ b ∈ h :: t, ∀ c ∈ h :: t, vLe a b → vLe b c → vLe a c) →
      ∀ c ∈ h :: t, vLe c (t.foldl pickMax h) := by
  induction t with
  | nil =>
      intro h _ c hc
      rcases List.mem_cons.mp hc with heq | hmem
      · rw [heq]; exact vLe_refl h
      · exact absurd hmem (List.not_mem_nil c)
  | cons x xr ih =>
      intro h htrans c hc
      have hsub : ∀ z ∈ pickMax h x :: xr, z ∈ h :: x :: xr := by
        intro z hz
        rcases List.mem_cons.mp hz with heq | hmem
        · rcases pickMax_cases h x with hp | hp
          · rw [heq, hp]; exact List.mem_cons_self _ _
          · rw [heq, hp]
            exact List.mem_cons_of_mem _ (List.mem_cons_self _ _)
        · exact List.mem_cons_of_mem _ (List.mem_cons_of_mem _ hmem)
      have htrans2 : ∀ a ∈ pickMax h x :: xr, ∀ b ∈ pickMax h x :: xr,
          ∀ z ∈ pickMax h x :: xr, vLe a b → vLe b z → vLe a z := by
        intro a ha b hb z hz
        exact htrans a (hsub a ha) b (hsub b hb) z (hsub z hz)
      have hres := ih (pickMax h x) htrans2
      have hresmem : xr.foldl pickMax (pickMax h x) ∈ h :: x :: xr :=
        hsub _ (foldl_pickMax_mem xr (pickMax h x))
      have hpmem : pickMax h x ∈ h :: x :: xr := hsub _ (List.mem_cons_self _ _)
      have hstep : vLe (pickMax h x) (xr.foldl pickMax (pickMax h x)) :=
        hres _ (List.mem_cons_self _ _)
      simp only [List.foldl_cons]
      rcases List.mem_cons.mp hc with heq | hmem
      · rw [heq]
        exact htrans h (List.mem_cons_self _ _) _ hpmem _ hresmem
          (vLe_pickMax_left h x) hstep
      · rcases List.mem_cons.mp hmem with heq2 | hmem2
        · rw [heq2]
          exact htrans x (List.mem_cons_of_mem _ (List.mem_cons_self _ _)) _ hpmem _ hresmem
            (vLe_pickMax_right h x) hstep
        · exact hres c (List.mem_cons_of_mem _ hmem2)

theorem maxVersion_spec (l : List String)
    (htrans : ∀ a ∈ l, ∀ b ∈ l, ∀ c ∈ l, vLe a b → vLe b c → vLe a c)
    (hne : l ≠ []) :
    ∃ m, maxVersion l = some m ∧ m ∈ l ∧ ∀ c ∈ l, vLe c m := by
  cases l with
  | nil => exact absurd rfl hne
  | cons h t =>
      refine ⟨t.foldl pickMax h, rfl, foldl_pickMax_mem t h, ?_⟩
      exact foldl_pickMax_ge t h htrans

theorem satisfiesPattern_literal (p c : String) (hw : hasWildcard p = false) :
    satisfiesPattern p c = (c == p) := by
  simp [satisfiesPattern, hw]

theorem selectBest_none_of_unsat (candidates : List String) (p : String)
    (h : ∀ c ∈ candidates, satisfiesPattern p c = false) :
    selectBest candidates (some p) = none := by
  simp only [selectBest]
  by_cases hw : hasWildcard p = true
  · rw [if_pos hw]
    have hfil : candidates.filter (fun c => satisfiesPattern p c) = [] := by
      rw [List.filter_eq_nil_iff]
      intro a ha
      simp [h a ha]
    rw [hfil]
    rfl
  · rw [if_neg hw]
    have hany : candidates.any (fun c => c == p) = false := by
      rw [List.any_eq_false]
      intro c hc
      have hc2 := h c hc
      rw [satisfiesPattern_literal p c (Bool.eq_false_iff.mpr hw)] at hc2
      simp [hc2]
    rw [hany]
    rfl

theorem mem_satisfying (candidates : List String) (pattern : Option String)
    (c : String) (hc : c ∈ satisfying candidates pattern) : c ∈ candidates := by
  cases pattern with
  | none => exact hc
  | some p => exact (List.mem_filter.mp hc).1

/-- C4: for every non-empty candidate set of version strings and optional
constraint pattern, the version pattern matcher returns the
version-ordering maximum of the candidates that satisfy the pattern (all
candidates when the pattern is none; candidates whose segments before the
wildcard match exactly when the pattern has wildcard segments), and
returns none when no candidate satisfies it; the ordering compares
dot-separated segments numerically when both parse as integers and
lexically otherwise, with missing trailing segments treated as zero, so
that among v1.2.0, v1.10.0 and v1.9.0 the maximum is v1.10.0.  The
mixed numeric and lexical segment comparison is not transitive on
arbitrary strings, so the maximum property carries a decidable
transitivity hypothesis over the candidate set. -/
theorem selectBest_spec (candidates : List String) (pattern : Option String)
    (htrans : ∀ a ∈ candidates, ∀ b ∈ candidates, ∀ c ∈ candidates,
      vLe a b → vLe b c → vLe a c) :
    (satisfying candidates pattern ≠ [] →
      ∃ m, selectBest candidates pattern = some m ∧
        m ∈ satisfying candidates pattern ∧
        ∀ c ∈ satisfying candidates pattern, vLe c m) ∧
    (satisfying candidates pattern = [] →
      selectBest candidates pattern = none) ∧
    selectBest ["v1.2.0", "v1.10.0", "v1.9.0"] none = some "v1.10.0" := by
  refine ⟨?_, ?_, by decide⟩
  · intro hne
    cases pattern with
    | none =>
        exact maxVersion_spec candidates htrans hne
    | some p =>
        by_cases hw : hasWildcard p = true
        · have hsat : satisfying candidates (some p) =
              candidates.filter (fun c => satisfiesPattern p c) := rfl
          have hsel : selectBest candidates (some p) =
              maxVersion (candidates.filter (fun c => satisfiesPattern p c)) := by
            simp only [selectBest, if_pos hw]
          rw [hsat] at hne ⊢
          rw [hsel]
          refine maxVersion_spec _ ?_ hne
          intro a ha b hb c hc
          exact htrans a (List.mem_filter.mp ha).1 b (List.mem_filter.mp hb).1
            c (List.mem_filter.mp hc).1
        · have hwf : hasWildcard p = false := Bool.eq_false_iff.mpr hw
          have hex : ∃ c ∈ candidates, (c == p) = true := by
            rcases List.exists_mem_of_ne_nil _ hne with ⟨c, hc⟩
            have := List.mem_filter.mp hc
            refine ⟨c, this.1, ?_⟩
            rw [← satisfiesPattern_literal p c hwf]
            exact this.2
          have hany : candidates.any (fun c => c == p) = true := by
            rw [List.any_eq_true]
            rcases hex with ⟨c, hc, hcp⟩
            exact ⟨c, hc, hcp⟩
          have hsel : selectBest candidates (some p) = some p := by
            simp only [selectBest, if_neg hw, if_pos hany]
          refine ⟨p, hsel, ?_, ?_⟩
          · rcases hex with ⟨c, hc, hcp⟩
            have hcp2 : c = p := eq_of_beq hcp
            refine List.mem_filter.mpr ⟨hcp2 ▸ hc, ?_⟩
            rw [satisfiesPattern_literal p p hwf]
            simp
          · intro c hc
            have hmf := List.mem_filter.mp hc
            have hcp : c = p := by
              have h2 := hmf.2
              rw [satisfiesPattern_literal p c hwf] at h2
              exact eq_of_beq h2
            rw [hcp]
            exact vLe_refl p
  · intro hempty
    cases pattern with
    | none =>
        rw [show satisfying candidates none = candidates from rfl] at hempty
        subst hempty
        rfl
    | some p =>
        apply selectBest_none_of_unsat
        intro c hc
        have : c ∉ satisfying candidates (some p) := by
          rw [hempty]
          exact List.not_mem_nil c
        by_contra hcs
        apply this
        exact List.mem_filter.mpr ⟨hc, by
          cases h2 : satisfiesPattern p c with
          | true => simp
          | false => exact absurd h2 hcs⟩

/-- Witness for C4, instantiating the matcher on the candidate set from
the specification with no pattern and with a wildcard pattern. -/
theorem selectBest_spec_witness :
    (satisfying ["v1.2.0", "v1.10.0", "v1.9.0"] none ≠ [] →
      ∃ m, selectBest ["v1.2.0", "v1.10.0", "v1.9.0"] none = some m ∧
        m ∈ satisfying ["v1.2.0", "v1.10.0", "v1.9.0"] none ∧
        ∀ c ∈ satisfying ["v1.2.0", "v1.10.0", "v1.9.0"] none, vLe c m) ∧
    (satisfying ["v1.2.0", "v1.10.0", "v1.9.0"] none = [] →
      selectBest ["v1.2.0", "v1.10.0", "v1.9.0"] none = none) ∧
    selectBest ["v1.2.0", "v1.10.0", "v1.9.0"] none = some "v1.10.0" :=
  selectBest_spec ["v1.2.0", "v1.10.0", "v1.9.0"] none (by decide)
/-- C1: for a non-Core artifact, refresh with both records supplied
performs zero catalog-client calls; with both absent and the bundle
record present in the catalog it performs exactly one bundle lookup
followed by exactly one version lookup; for a Core artifact with both
absent it performs only a version lookup and no bundle lookup. -/
theorem refreshMetadata_call_counts (cat : PlayStoreCatalog) (bt : BundleType)
    (name version : String) (writable : Bool) (conn : Except TankError Unit)
    (b : BundleRecord) (v : VersionRecord) :
    (bt ≠ .core →
      (refreshMetadata cat bt name version writable conn (some b) (some v)).calls = []) ∧
    (bt ≠ .core → conn = .ok () → (∃ br, cat.findBundle bt name = some br) →
      (refreshMetadata cat bt name version writable conn none none).calls =
        [.bundleLookup, .versionLookup]) ∧
    (bt = .core → conn = .ok () →
      (refreshMetadata cat bt name version writable conn none none).calls =
        [.versionLookup]) := by
  refine ⟨fun _ => rfl, ?_, ?_⟩
  · intro hbt hconn hex
    rcases hex with ⟨br, hbr⟩
    subst hconn
    cases hv : cat.findVersion bt br version <;>
      simp [refreshMetadata, hbt, hbr, hv]
  · intro hbt hconn
    subst hbt
    subst hconn
    cases hv : cat.findCoreVersion version <;>
      simp [refreshMetadata, hv]

/-- Witness for C1 at the sample catalog, an application kind for the
non-Core cases and the core kind for the Core case. -/
theorem refreshMetadata_call_counts_witness :
    (refreshMetadata sampleCatalog .app "tk-framework-demo" "v1.0.0" true (.ok ())
        (some ⟨1, "tk-framework-demo"⟩) (some ⟨2, "v1.0.0", some []⟩)).calls = [] ∧
    (refreshMetadata sampleCatalog .app "tk-framework-demo" "v1.0.0" true (.ok ())
        none none).calls = [.bundleLookup, .versionLookup] ∧
    (refreshMetadata sampleCatalog .core "tk-core" "v1.0.0" true (.ok ())
        none none).calls = [.versionLookup] :=
  ⟨(refreshMetadata_call_counts sampleCatalog .app "tk-framework-demo" "v1.0.0" true
      (.ok ()) ⟨1, "tk-framework-demo"⟩ ⟨2, "v1.0.0", some []⟩).1 (by decide),
   (refreshMetadata_call_counts sampleCatalog .app "tk-framework-demo" "v1.0.0" true
      (.ok ()) ⟨1, "tk-framework-demo"⟩ ⟨2, "v1.0.0", some []⟩).2.1 (by decide) rfl
      ⟨⟨1, "tk-framework-demo"⟩, rfl⟩,
   (refreshMetadata_call_counts sampleCatalog .core "tk-core" "v1.0.0" true
      (.ok ()) ⟨1, "tk-framework-demo"⟩ ⟨2, "v1.0.0", some []⟩).2.2 rfl rfl⟩

/-- C6: when the side-car write fails (unwritable cache location),
refresh does not raise anything it would not raise otherwise: nothing
is persisted, and the returned value and the remote calls are exactly
those of a run with a writable cache, so the assembled metadata is
still returned unchanged. -/
theorem refreshMetadata_unwritable_swallowed (cat : PlayStoreCatalog)
    (bt : BundleType) (name version : String) (conn : Except TankError Unit)
    (bd : Option BundleRecord) (vd : Option VersionRecord) :
    (refreshMetadata cat bt name version false conn bd vd).written = none ∧
    (refreshMetadata cat bt name version false conn bd vd).result =
      (refreshMetadata cat bt name version true conn bd vd).result ∧
    (refreshMetadata cat bt name version false conn bd vd).calls =
      (refreshMetadata cat bt name version true conn bd vd).calls := by
  cases vd with
  | some v => exact ⟨rfl, rfl, rfl⟩
  | none =>
      cases conn with
      | error e => exact ⟨rfl, rfl, rfl⟩
      | ok u =>
          by_cases hbt : bt = .core
          · subst hbt
            cases hv : cat.findCoreVersion version <;>
              simp [refreshMetadata, hv]
          · cases hb : cat.findBundle bt name with
            | none => simp [refreshMetadata, hbt, hb]
            | some br =>
                cases hv : cat.findVersion bt br version <;>
                  simp [refreshMetadata, hbt, hb, hv]

/-- C10: the pre-fetched fast path is decided solely by the version
data: version data alone suffices (no remote call, side-car assembled
with bundle data none), while bundle data alone is ignored - the run
is identical to one given no data at all, and for a non-Core kind with
both records present remotely both lookups run and their results
overwrite the supplied bundle data. -/
theorem refreshMetadata_fast_path_version_only (cat : PlayStoreCatalog)
    (bt : BundleType) (name version : String) (writable : Bool)
    (conn : Except TankError Unit) (b : BundleRecord) (v : VersionRecord) :
    refreshMetadata cat bt name version writable conn none (some v) =
      ⟨.ok ⟨none, some v⟩, [],
        if writable then some ⟨none, some v⟩ else none⟩ ∧
    refreshMetadata cat bt name version writable conn (some b) none =
      refreshMetadata cat bt name version writable conn none none ∧
    (bt ≠ .core → conn = .ok () →
      ∀ br, cat.findBundle bt name = some br →
      ∀ vr, cat.findVersion bt br version = some vr →
      (refreshMetadata cat bt name version writable conn (some b) none).result =
        .ok ⟨some br, some vr⟩ ∧
      (refreshMetadata cat bt name version writable conn (some b) none).calls =
        [.bundleLookup, .versionLookup]) := by
  refine ⟨rfl, rfl, ?_⟩
  intro hbt hconn br hbr vr hvr
  subst hconn
  constructor <;> simp [refreshMetadata, hbt, hbr, hvr]

/-- Witness for C10 at the sample catalog with an application kind. -/
theorem refreshMetadata_fast_path_version_only_witness :
    refreshMetadata sampleCatalog .app "tk-framework-demo" "v1.0.0" true (.ok ())
        none (some ⟨2, "v1.0.0", some []⟩) =
      ⟨.ok ⟨none, some ⟨2, "v1.0.0", some []⟩⟩, [],
        if true then some ⟨none, some ⟨2, "v1.0.0", some []⟩⟩ else none⟩ ∧
    (refreshMetadata sampleCatalog .app "tk-framework-demo" "v1.0.0" true (.ok ())
        (some ⟨9, "stale"⟩) none).result =
      .ok ⟨some ⟨1, "tk-framework-demo"⟩, some ⟨2, "v1.0.0", some []⟩⟩ :=
  ⟨(refreshMetadata_fast_path_version_only sampleCatalog .app "tk-framework-demo"
      "v1.0.0" true (.ok ()) ⟨9, "stale"⟩ ⟨2, "v1.0.0", some []⟩).1,
   ((refreshMetadata_fast_path_version_only sampleCatalog .app "tk-framework-demo"
      "v1.0.0" true (.ok ()) ⟨9, "stale"⟩ ⟨2, "v1.0.0", some []⟩).2.2 (by decide) rfl
      ⟨1, "tk-framework-demo"⟩ rfl ⟨2, "v1.0.0", some []⟩ rfl).1⟩

/- ------------------------------------------------------------------
Claim theorems for the matcher, cache and connection components.
------------------------------------------------------------------ -/

/-- C3: the label matcher returns true whenever the label is none;
false when a label is set but the tag list is none; and otherwise true
exactly when the label matches at least one tag under glob semantics,
the tag being the pattern and the label the subject, so that label
2018.2 matches tag 2018.* and does not match tag 2019.*. -/
theorem matchLabel_spec (label : Option String) (tagList : Option (List String)) :
    (label = none → matchLabel label tagList = true) ∧
    (∀ l, label = some l → tagList = none → matchLabel label tagList = false) ∧
    (∀ l tags, label = some l → tagList = some tags →
      (matchLabel label tagList = true ↔ ∃ t ∈ tags, fnmatch l t = true)) ∧
    matchLabel (some "2018.2") (some ["2018.*"]) = true ∧
    matchLabel (some "2018.2") (some ["2019.*"]) = false := by
  refine ⟨?_, ?_, ?_, by decide, by decide⟩
  · intro h
    subst h
    rfl
  · intro l hl ht
    subst hl
    subst ht
    rfl
  · intro l tags hl ht
    subst hl
    subst ht
    simp [matchLabel, List.any_eq_true]

/-- Witness for C3 at the concrete labels and tags of the spec. -/
theorem matchLabel_spec_witness :
    matchLabel none (some ["zzz"]) = true ∧
    matchLabel (some "2018.2") none = false ∧
    (matchLabel (some "2018.2") (some ["2018.*", "2019.*"]) = true ↔
      ∃ t ∈ ["2018.*", "2019.*"], fnmatch "2018.2" t = true) :=
  ⟨(matchLabel_spec none (some ["zzz"])).1 rfl,
   (matchLabel_spec (some "2018.2") none).2.1 "2018.2" rfl rfl,
   (matchLabel_spec (some "2018.2") (some ["2018.*", "2019.*"])).2.2.1 "2018.2"
     ["2018.*", "2019.*"] rfl rfl⟩

/-- C5: loading the side-car metadata of a path whose metadata file
does not exist returns the empty metadata record - no bundle data and
no version data - and raises no error. -/
theorem loadCachedPlayStoreMetadata_missing (fs : FileSys) (path : String)
    (h : fs (joinPath path METADATA_FILE) = none) :
    loadCachedPlayStoreMetadata fs path = .ok ⟨none, none⟩ := by
  unfold loadCachedPlayStoreMetadata
  rw [h]

/-- Witness for C5 at a path the sample filesystem does not hold. -/
theorem loadCachedPlayStoreMetadata_missing_witness :
    loadCachedPlayStoreMetadata sampleFs "p3" = .ok ⟨none, none⟩ :=
  loadCachedPlayStoreMetadata_missing sampleFs "p3" rfl

theorem cachedVersionNumbersLoop_mem (fs : FileSys) (label : Option String) :
    ∀ (l : List (String × String)) (nums : List String),
      cachedVersionNumbersLoop fs label l = .ok nums →
      ∀ vstr, (vstr ∈ nums ↔ ∃ path, (vstr, path) ∈ l ∧
        ∃ md, loadCachedPlayStoreMetadata fs path = .ok md ∧
        ∃ ts, extractTags md = .ok ts ∧ matchLabel label (some ts) = true) := by
  intro l
  induction l with
  | nil =>
      intro nums h vstr
      have hn : nums = [] := (Except.ok.inj h).symm
      subst hn
      simp
  | cons vp rest ih =>
      intro nums h vstr
      simp only [cachedVersionNumbersLoop] at h
      cases hmd : loadCachedPlayStoreMetadata fs vp.2 with
      | error e => simp only [hmd] at h; exact absurd h (by simp)
      | ok md =>
          simp only [hmd] at h
          cases htail : cachedVersionNumbersLoop fs label rest with
          | error e => simp only [htail] at h; exact absurd h (by simp)
          | ok tail =>
              simp only [htail] at h
              have ihtail := ih tail htail vstr
              cases hex : extractTags md with
              | error e =>
                  simp only [hex] at h
                  have hn : nums = tail := (Except.ok.inj h).symm
                  subst hn
                  constructor
                  · intro hmem
                    rcases ihtail.mp hmem with ⟨path, hp, rest2⟩
                    exact ⟨path, List.mem_cons_of_mem _ hp, rest2⟩
                  · rintro ⟨path, hp, md2, hmd2, ts2, hts2, hm2⟩
                    rcases List.mem_cons.mp hp with heq | hmem2
                    · have hpath : path = vp.2 := by rw [← heq]
                      rw [hpath] at hmd2
                      have hmdeq : md2 = md := Except.ok.inj (hmd2.symm.trans hmd)
                      rw [hmdeq, hex] at hts2
                      exact absurd hts2 (by simp)
                    · exact ihtail.mpr ⟨path, hmem2, md2, hmd2, ts2, hts2, hm2⟩
              | ok ts =>
                  simp only [hex] at h
                  have hn : nums =
                      if matchLabel label (some ts) then vp.1 :: tail else tail :=
                    (Except.ok.inj h).symm
                  subst hn
                  by_cases hm : matchLabel label (some ts) = true
                  · rw [if_pos hm]
                    constructor
                    · intro hmem
                      rcases List.mem_cons.mp hmem with heq | hmem2
                      · subst heq
                        exact ⟨vp.2, List.mem_cons_self _ _, md, hmd, ts, hex, hm⟩
                      · rcases ihtail.mp hmem2 with ⟨path, hp, rest2⟩
                        exact ⟨path, List.mem_cons_of_mem _ hp, rest2⟩
                    · rintro ⟨path, hp, md2, hmd2, ts2, hts2, hm2⟩
                      rcases List.mem_cons.mp hp with heq | hmem2
                      · have hv : vstr = vp.1 := by rw [← heq]
                        rw [hv]
                        exact List.mem_cons_self _ _
                      · exact List.mem_cons_of_mem _
                          (ihtail.mpr ⟨path, hmem2, md2, hmd2, ts2, hts2, hm2⟩)
                  · rw [if_neg hm]
                    constructor
                    · intro hmem
                      rcases ihtail.mp hmem with ⟨path, hp, rest2⟩
                      exact ⟨path, List.mem_cons_of_mem _ hp, rest2⟩
                    · rintro ⟨path, hp, md2, hmd2, ts2, hts2, hm2⟩
                      rcases List.mem_cons.mp hp with heq | hmem2
                      · have hpath : path = vp.2 := by rw [← heq]
                        rw [hpath] at hmd2
                        have hmdeq : md2 = md := Except.ok.inj (hmd2.symm.trans hmd)
                        rw [hmdeq, hex] at hts2
                        have htseq : ts = ts2 := Except.ok.inj hts2
                        rw [← htseq] at hm2
                        exact absurd hm2 hm
                      · exact ihtail.mpr ⟨path, hmem2, md2, hmd2, ts2, hts2, hm2⟩

theorem cachedVersionNumbersLoop_ok (fs : FileSys) (label : Option String) :
    ∀ (l : List (String × String)),
      (∀ vp ∈ l, ∃ md, loadCachedPlayStoreMetadata fs vp.2 = .ok md) →
      ∃ nums, cachedVersionNumbersLoop fs label l = .ok nums := by
  intro l
  induction l with
  | nil => intro _; exact ⟨[], rfl⟩
  | cons vp rest ih =>
      intro hall
      rcases hall vp (List.mem_cons_self _ _) with ⟨md, hmd⟩
      rcases ih (fun q hq => hall q (List.mem_cons_of_mem _ hq)) with ⟨tail, htail⟩
      cases hex : extractTags md with
      | error e =>
          exact ⟨tail, by simp only [cachedVersionNumbersLoop, hmd, htail, hex]⟩
      | ok ts =>
          exact ⟨if matchLabel label (some ts) then vp.1 :: tail else tail,
            by simp only [cachedVersionNumbersLoop, hmd, htail, hex]⟩

theorem getLatestCachedVersion_ok_of_numbers (fs : FileSys)
    (allVersions : List (String × String)) (name : String)
    (label : Option String) (pattern : Option String) :
    ∀ nums, cachedVersionNumbers fs allVersions label = .ok nums →
      ∃ r, getLatestCachedVersion fs allVersions name label pattern = .ok r := by
  intro nums hn
  simp only [getLatestCachedVersion, hn]
  by_cases he : nums.isEmpty
  · rw [if_pos he]
    exact ⟨none, rfl⟩
  · rw [if_neg he]
    cases hs : selectBest nums pattern with
    | none => exact ⟨none, rfl⟩
    | some v => exact ⟨some ⟨"play_store", name, v, label⟩, rfl⟩

/-- Counterexample for C7 as frozen: the claim promises that a cached
version whose metadata cannot establish matching tags is silently
excluded and that the operation never raises, but on a filesystem
whose side-car at path p2 is corrupt-but-present the labelled query
raises the unpickling error - the load at playstore.py line 548 sits
outside the try/except of lines 549-557. -/
theorem getLatestCachedVersion_corrupt_raises :
    getLatestCachedVersion sampleFs [("v1.0.0", "p1"), ("v2.0.0", "p2")]
        "tk-maya" (some "2018.2") none = .error () := by
  decide

/-- C7 (amended): the latest-cached-version query involves no catalog
client (none appears in its definition); under a label, a cached
version whose side-car loads - a missing file loading as the empty
record - but whose metadata cannot establish matching tags is silently
excluded, membership in the surviving set requiring a path with
readable, matching cached tags; whenever every candidate side-car
loads the operation returns a fully populated descriptor or the ok
none result, never an error - while a corrupt present side-car makes
it raise, per the counterexample. -/
theorem getLatestCachedVersion_spec (fs : FileSys)
    (allVersions : List (String × String)) (name : String)
    (label : Option String) (pattern : Option String) :
    (∀ d, getLatestCachedVersion fs allVersions name label pattern = .ok (some d) →
      d.descType = "play_store" ∧ d.name = name ∧ d.label = label ∧
        ∃ nums, cachedVersionNumbers fs allVersions label = .ok nums ∧
          selectBest nums pattern = some d.version) ∧
    (∀ l, label = some l → ∀ nums,
      cachedVersionNumbers fs allVersions label = .ok nums →
      ∀ vstr, (vstr ∈ nums ↔ ∃ path, (vstr, path) ∈ allVersions ∧
        ∃ md, loadCachedPlayStoreMetadata fs path = .ok md ∧
        ∃ ts, extractTags md = .ok ts ∧ matchLabel (some l) (some ts) = true)) ∧
    ((∀ vp ∈ allVersions, ∃ md, loadCachedPlayStoreMetadata fs vp.2 = .ok md) →
      ∃ r, getLatestCachedVersion fs allVersions name label pattern = .ok r) ∧
    (label = none →
      ∃ r, getLatestCachedVersion fs allVersions name label pattern = .ok r) ∧
    (∀ nums, cachedVersionNumbers fs allVersions label = .ok nums →
      (nums = [] ∨ selectBest nums pattern = none) →
      getLatestCachedVersion fs allVersions name label pattern = .ok none) := by
  refine ⟨?_, ?_, ?_, ?_, ?_⟩
  · intro d hd
    simp only [getLatestCachedVersion] at hd
    cases hn : cachedVersionNumbers fs allVersions label with
    | error e => simp only [hn] at hd; exact absurd hd (by simp)
    | ok nums =>
        simp only [hn] at hd
        by_cases he : nums.isEmpty
        · rw [if_pos he] at hd
          exact absurd hd (by simp)
        · rw [if_neg he] at hd
          cases hs : selectBest nums pattern with
          | none =>
              simp only [hs] at hd
              exact absurd hd (by simp)
          | some v =>
              simp only [hs] at hd
              have hdv : d = ⟨"play_store", name, v, label⟩ :=
                (Option.some.inj (Except.ok.inj hd)).symm
              subst hdv
              refine ⟨rfl, rfl, rfl, nums, rfl, ?_⟩
              exact hs
  · intro l hl nums hn vstr
    subst hl
    exact cachedVersionNumbersLoop_mem fs (some l) allVersions nums hn vstr
  · intro hall
    have hok : ∃ nums, cachedVersionNumbers fs allVersions label = .ok nums := by
      cases label with
      | none => exact ⟨_, rfl⟩
      | some l => exact cachedVersionNumbersLoop_ok fs (some l) allVersions hall
    rcases hok with ⟨nums, hn⟩
    exact getLatestCachedVersion_ok_of_numbers fs allVersions name label pattern nums hn
  · intro hl
    subst hl
    exact getLatestCachedVersion_ok_of_numbers fs allVersions name none pattern _ rfl
  · intro nums hn hcase
    simp only [getLatestCachedVersion, hn]
    rcases hcase with hnil | hsel
    · subst hnil
      rfl
    · by_cases he : nums.isEmpty
      · rw [if_pos he]
      · rw [if_neg he, hsel]

/-- Witness for C7: on the sample filesystem with candidate paths p1
(readable tags) and p3 (no side-car file, loading as the empty record),
every load succeeds, v2.0.0 is silently excluded because the empty
record cannot establish tags, and the labelled query resolves to
v1.0.0 without error. -/
theorem getLatestCachedVersion_spec_witness :
    ("v2.0.0" ∈ (["v1.0.0"] : List String) ↔
      ∃ path, ("v2.0.0", path) ∈ [("v1.0.0", "p1"), ("v2.0.0", "p3")] ∧
        ∃ md, loadCachedPlayStoreMetadata sampleFs path = .ok md ∧
        ∃ ts, extractTags md = .ok ts ∧
          matchLabel (some "2018.2") (some ts) = true) ∧
    (∃ r, getLatestCachedVersion sampleFs [("v1.0.0", "p1"), ("v2.0.0", "p3")]
        "tk-maya" (some "2018.2") none = .ok r) ∧
    getLatestCachedVersion sampleFs [("v1.0.0", "p1"), ("v2.0.0", "p3")]
        "tk-maya" (some "2018.2") none =
      .ok (some ⟨"play_store", "tk-maya", "v1.0.0", some "2018.2"⟩) :=
  ⟨(getLatestCachedVersion_spec sampleFs [("v1.0.0", "p1"), ("v2.0.0", "p3")]
      "tk-maya" (some "2018.2") none).2.1 "2018.2" rfl ["v1.0.0"] (by decide)
      "v2.0.0",
   (getLatestCachedVersion_spec sampleFs [("v1.0.0", "p1"), ("v2.0.0", "p3")]
      "tk-maya" (some "2018.2") none).2.2.1 (by
        intro vp hvp
        rcases List.mem_cons.mp hvp with h1 | h1
        · subst h1
          exact ⟨⟨none, some ⟨1, "v1.0.0", some ["2018.*"]⟩⟩, rfl⟩
        · rcases List.mem_cons.mp h1 with h2 | h2
          · subst h2
            exact ⟨⟨none, none⟩, rfl⟩
          · exact absurd h2 (List.not_mem_nil vp)),
   by decide⟩

/-- C2: when, after label filtering, the surviving candidate set is
non-empty but no surviving candidate satisfies the constraint pattern,
get_latest_version fails with the no-matching-version error whose
message enumerates the version strings of the surviving candidates. -/
theorem getLatestVersion_noMatchingVersion (name : String) (label : Option String)
    (sgVersions : List SgVersionEntry) (p : String)
    (hne : sgVersions.filter (fun e => matchLabel label (some e.tags)) ≠ [])
    (hnomatch : ∀ e ∈ sgVersions.filter (fun e => matchLabel label (some e.tags)),
      satisfiesPattern p e.code = false) :
    getLatestVersionSelect name label sgVersions (some p) =
      .error (.descriptorError (noMatchingVersionMsg name p
        ((sgVersions.filter (fun e => matchLabel label (some e.tags))).map
          (fun r => r.code)))) := by
  have hsel : selectBest
      ((sgVersions.filter (fun e => matchLabel label (some e.tags))).map
        (fun r => r.code)) (some p) = none := by
    apply selectBest_none_of_unsat
    intro c hc
    rcases List.mem_map.mp hc with ⟨r, hr, hrc⟩
    rw [← hrc]
    exact hnomatch r hr
  cases hF : sgVersions.filter (fun e => matchLabel label (some e.tags)) with
  | nil => exact absurd hF hne
  | cons e rest =>
      rw [hF] at hsel
      simp only [getLatestVersionSelect, hF, hsel]


/-- Witness for C2: two surviving candidates and a wildcard pattern
none of them satisfies. -/
theorem getLatestVersion_noMatchingVersion_witness :
    getLatestVersionSelect "tk-framework-demo" none sampleEntries (some "v9.x.x") =
      .error (.descriptorError (noMatchingVersionMsg "tk-framework-demo" "v9.x.x"
        ((sampleEntries.filter
            (fun e => matchLabel none (some e.tags))).map (fun r => r.code)))) :=
  getLatestVersion_noMatchingVersion "tk-framework-demo" none
    sampleEntries "v9.x.x" (by decide) (by decide)

/-- C8: a 403 HTTP error from the install-credentials fetch triggers
exactly one retry of that fetch, preceded by a session refresh through
an unrelated catalog query; the outcome of the retry - success or
failure - propagates as is; an HTTP error with any other code
propagates immediately with no refresh and no retry; a success needs
no retry; and an exception of another type is not handled at all. -/
theorem fetchCredsWithRetry_spec (fetch : Nat → Except FetchErr Creds) :
    (fetch 0 = .error (.httpError 403) →
      fetchCredsWithRetry fetch =
        (fetch 1, [.credsFetch, .sessionRefresh, .credsFetch])) ∧
    (∀ code, code ≠ 403 → fetch 0 = .error (.httpError code) →
      fetchCredsWithRetry fetch = (.error (.httpError code), [.credsFetch])) ∧
    (∀ c, fetch 0 = .ok c →
      fetchCredsWithRetry fetch = (.ok c, [.credsFetch])) ∧
    (fetch 0 = .error .otherExc →
      fetchCredsWithRetry fetch = (.error .otherExc, [.credsFetch])) := by
  refine ⟨?_, ?_, ?_, ?_⟩
  · intro h
    simp [fetchCredsWithRetry, h]
  · intro code hc h
    simp [fetchCredsWithRetry, h, hc]
  · intro c h
    simp [fetchCredsWithRetry, h]
  · intro h
    simp [fetchCredsWithRetry, h]


/-- Witness for C8: a fetch oracle that returns 403 on the first call
and credentials on the retry. -/
theorem fetchCredsWithRetry_spec_witness :
    fetchCredsWithRetry sampleFetch =
      (sampleFetch 1, [.credsFetch, .sessionRefresh, .credsFetch]) :=
  (fetchCredsWithRetry_spec sampleFetch).1 rfl

/-- C9: the connectivity probe returns true exactly when the
underlying connection step succeeds and false exactly when that step
raises, whatever the exception; it is a total boolean function of the
step's outcome, so no exception propagates and nothing else is
observable. -/
theorem hasRemoteAccess_spec {α : Type} (conn : Except TankError α) :
    (hasRemoteAccess conn = true ↔ ∃ c, conn = .ok c) ∧
    (hasRemoteAccess conn = false ↔ ∃ e, conn = .error e) := by
  cases conn with
  | ok c => constructor <;> simp [hasRemoteAccess]
  | error e => constructor <;> simp [hasRemoteAccess]

/-- Witness for C9 at a succeeding and at a failing connection step. -/
theorem hasRemoteAccess_spec_witness :
    hasRemoteAccess (.ok 0 : Except TankError Nat) = true ∧
    hasRemoteAccess
      (.error (.connectionError "no route") : Except TankError Nat) = false :=
  ⟨(hasRemoteAccess_spec (.ok 0 : Except TankError Nat)).1.mpr ⟨0, rfl⟩,
   (hasRemoteAccess_spec
      (.error (.connectionError "no route") : Except TankError Nat)).2.mpr
     ⟨.connectionError "no route", rfl⟩⟩

end PlayStore
